import Mathlib

/-!
Verification of the cross-window auto-bid arbitration engine, the article
record merge, the legacy-key translation, the "boring article" eviction rule
and the bid-time deconfliction algorithm of the Biet-O-Matic browser
extension popup (src/src/js/popup.js), as a shallow embedding in Lean.

JavaScript values are modelled as follows: an object key that may be absent
or null becomes an `Option`; where the code distinguishes a key that is
present-but-null from an absent key (`hasOwnProperty`), a nested
`Option (Option _)` is used; machine integers (millisecond timestamps) are
`Int`; monetary amounts are `ℚ`; generic JS objects used as dictionaries are
association lists `List (String × V)` with JS `Object.assign` / `delete`
semantics made explicit.
-/

/-! ## Generic JS object model (association lists)

Used for `Article.convertKeys` and `Article.updateInfoInStorage`, which
manipulate records by key name (`hasOwnProperty`, property assignment,
`delete`, `Object.assign`). Real JS objects have at most one entry per key;
the operations below preserve that shape and also preserve JS key order
(in-place update for an existing key, append for a new one).
-/

/-- A JS object with values of type `V`: an association list, at most one
entry per key. -/
abbrev JsObj (V : Type) : Type := List (String × V)

/-- Property read: `o[k]`, `undefined` (`none`) when the key is absent. -/
def getK {V : Type} : JsObj V → String → Option V
  | [], _ => none
  | (k, v) :: rest, key => if k = key then some v else getK rest key

/-- Property write `o[k] = v`: update in place when the key exists, append
otherwise (JS key-order semantics). -/
def jsSet {V : Type} : JsObj V → String → V → JsObj V
  | [], key, v => [(key, v)]
  | (k, w) :: rest, key, v =>
      if k = key then (key, v) :: rest else (k, w) :: jsSet rest key v

/-- Property removal `delete o[k]`. -/
def jsDelete {V : Type} : JsObj V → String → JsObj V
  | [], _ => []
  | (k, w) :: rest, key =>
      if k = key then jsDelete rest key else (k, w) :: jsDelete rest key

/-- JS `Object.assign(target, src)`: copy every own property of `src` onto
`target`, left to right. -/
def jsAssign {V : Type} (target src : JsObj V) : JsObj V :=
  src.foldl (fun acc kv => jsSet acc kv.1 kv.2) target

/-! ## Article.convertKeys (popup.js lines 473-511)

Translates the seven legacy short field names to the long canonical names.
Each block of the source is
`if (info.hasOwnProperty(short)) { info[long] = info[short]; delete info[short]; converted++; }`;
the blocks run in source order: autoBid, minBid, maxBid, description,
endTime, bidPrice, group. The function mutates `info` in place and returns
the number of converted keys; the embedding returns the pair
(new record, count).
-/

/-- One conversion block of `Article.convertKeys`: move key `shortK` to
`longK` when present and bump the counter. -/
def convertStep {V : Type} (p : JsObj V × Nat) (shortK longK : String) : JsObj V × Nat :=
  match getK p.1 shortK with
  | some v => (jsDelete (jsSet p.1 longK v) shortK, p.2 + 1)
  | none => p

/-- Article.convertKeys: the seven legacy-key translation blocks in source
order, returning the translated record and the conversion count. -/
def convertKeys {V : Type} (o : JsObj V) : JsObj V × Nat :=
  convertStep (convertStep (convertStep (convertStep (convertStep (convertStep (convertStep
    (o, 0) "autoBid" "articleAutoBid")
    "minBid" "articleMinBid")
    "maxBid" "articleMaxBid")
    "description" "articleDescription")
    "endTime" "articleEndTime")
    "bidPrice" "articleBidPrice")
    "group" "articleGroup"

/-- A record carrying none of the seven legacy short field names. -/
def noShortKeys {V : Type} (o : JsObj V) : Prop :=
  getK o "autoBid" = none ∧ getK o "minBid" = none ∧ getK o "maxBid" = none ∧
  getK o "description" = none ∧ getK o "endTime" = none ∧
  getK o "bidPrice" = none ∧ getK o "group" = none

instance {V : Type} [DecidableEq V] (o : JsObj V) : Decidable (noShortKeys o) := by
  unfold noShortKeys; infer_instance

/-! ## Article.updateInfoInStorage (popup.js lines 610-661)

The caller-visible persistent effect is the record written under the
article's id:
`oldStoredInfo` = the stored record run through `convertKeys` (or `{}`),
`newStoredInfo` = `Object.assign({}, info)` run through `convertKeys`, then
`Object.assign(newStoredInfo, this)` (the in-memory article object), then
`delete` of `popup`, `tabId` and `articleDetailsShown`, and the written
record is `Object.assign({}, oldStoredInfo, newStoredInfo)`. The
string-to-float coercion of `info.maxBid` (line 623-629) rewrites only the
value of an existing `maxBid` key and never changes the key set, so it is
not modelled at the opaque value type `V`.
-/

/-- The record `Article.updateInfoInStorage` writes to synchronized storage
(`mergedStoredInfo`), given the previously stored record (if any), the
incoming `info` argument and the own enumerable fields of the in-memory
article object (`this`). -/
def updateInfoInStorageMerged {V : Type} (oldStored : Option (JsObj V))
    (info : JsObj V) (articleFields : JsObj V) : JsObj V :=
  let oldStoredInfo : JsObj V :=
    match oldStored with
    | some o => (convertKeys o).1
    | none => []
  let n1 := jsAssign [] info
  let n2 := (convertKeys n1).1
  let n3 := jsAssign n2 articleFields
  let n4 := jsDelete n3 "popup"
  let n5 := jsDelete n4 "tabId"
  let n6 := jsDelete n5 "articleDetailsShown"
  jsAssign (jsAssign [] oldStoredInfo) n6

/-- Key read lifted to an optional object (absent record reads as absent
key). -/
def optGetK {V : Type} (o : Option (JsObj V)) (k : String) : Option V :=
  match o with
  | some obj => getK obj k
  | none => none

/-! ## AutoBid arbitration engine (popup.js lines 159-424)

The synced owner record lives under the fixed key `SETTINGS` in the
synchronized tier, as `{autoBid: {id, autoBidEnabled, timestamp}, ...}`.
In `AutoBidEntry` a field models a key that the various writers may omit or
set to null; the code only ever tests these fields with
`hasOwnProperty(k) && x.k === v`, `!= null` or `=== v`, on which an absent
key and a null value behave identically, so both are collapsed to `none`.
`autoBidEnabled` is `Option Bool` because the dead-man-switch path stores a
literal `null` there.
-/

/-- The `autoBid` entry of the stored SETTINGS record. -/
structure AutoBidEntry where
  id : Option String
  autoBidEnabled : Option Bool
  timestamp : Option Int
deriving DecidableEq, Repr

/-- The stored SETTINGS record: the `autoBid` entry plus the remaining keys
(untouched by the engine, but dropped or preserved by the different
`setSyncState` branches). -/
structure Settings where
  autoBid : Option AutoBidEntry
  other : List (String × String)
deriving DecidableEq, Repr

/-- Result shape of `AutoBid.getSyncState`:
`{autoBidEnabled: false, id: null, timestamp: null}` merged with the stored
`autoBid` entry. -/
structure SyncInfo where
  autoBidEnabled : Option Bool
  id : Option String
  timestamp : Option Int
deriving DecidableEq, Repr

/-- AutoBid.getSyncState (lines 186-199): start from the defaults and
`Object.assign` the stored entry over them when the SETTINGS record exists
and carries an `autoBid` key. `stored = none` models an absent SETTINGS
key (the `Object.keys(result).length === 1` guard failing). -/
def getSyncState (stored : Option Settings) : SyncInfo :=
  match stored with
  | some s =>
    match s.autoBid with
    | some e => { autoBidEnabled := e.autoBidEnabled, id := e.id, timestamp := e.timestamp }
    | none => { autoBidEnabled := some false, id := none, timestamp := none }
  | none => { autoBidEnabled := some false, id := none, timestamp := none }

/-- AutoBid.setSyncState (lines 204-233). `autoBidEnabled` is
`none` for the JS `null` call (dead man switch), `some b` otherwise. Note
the `autoBidEnabled == null` branch of the source deletes `autoBid` from the
local variable `oldSettings` but never assigns `oldSettings` to
`newSettings`, so the record written in that branch is the freshly built
`newSettings` object — carrying a new `autoBid` entry `{id: myId,
autoBidEnabled: null, timestamp: now}` and none of the other old keys. -/
def setSyncState (stored : Option Settings) (myId : String)
    (autoBidEnabled : Option Bool) (now : Int) : Settings :=
  let oldSettings : Settings := match stored with
    | some s => s
    | none => { autoBid := none, other := [] }
  let fresh : AutoBidEntry :=
    { id := some myId, autoBidEnabled := autoBidEnabled, timestamp := some now }
  match autoBidEnabled with
  | none =>
      { autoBid := some fresh, other := [] }
  | some false =>
      (match oldSettings.autoBid with
       | some e =>
         if e.id = some myId then { oldSettings with autoBid := none } else oldSettings
       | none => oldSettings)
  | some true =>
      { autoBid := some fresh, other := oldSettings.other }

/-- AutoBid.removeDeadAutoBid (lines 376-386): when a timestamp is stored
and the entry is older than five minutes, call `setSyncState(null)`. The
JS test is `(Date.now() - syncState.timestamp)/1000 > 300` with real-number
division, which for integer timestamps equals `now - ts > 300000`; the
second `Date.now()` inside `setSyncState` is modelled by the same `now`. -/
def removeDeadAutoBid (stored : Option Settings) (myId : String) (now : Int) :
    Option Settings :=
  let syncState := getSyncState stored
  match syncState.timestamp with
  | some ts =>
      if now - ts > 300 * 1000 then some (setSyncState stored myId none now) else stored
  | none => stored

/-- Per-window local auto-bid state (window.sessionStorage `settings`,
merged over the defaults `{autoBidEnabled: false, simulation: false}` by
`AutoBid.getLocalState`). -/
structure LocalState where
  autoBidEnabled : Bool
  simulation : Bool
deriving DecidableEq, Repr

/-- The storage effect of one `AutoBid.deadManSwitch` sweep (lines 353-373)
on the synced SETTINGS record: a timestamp refresh via `setSyncState(null)`
when this window has non-simulated auto-bid enabled locally, followed by
`removeDeadAutoBid`. -/
def deadManSwitchStep (localState : LocalState) (stored : Option Settings)
    (myId : String) (now : Int) : Option Settings :=
  let afterRefresh :=
    if !localState.simulation && localState.autoBidEnabled then
      some (setSyncState stored myId none now)
    else stored
  removeDeadAutoBid afterRefresh myId now

/-- Model of the HTML advisory built by `AutoBid.getDisableMessage`
(lines 313-347): both text variants embed a link whose target is
`#<otherId>`, naming the other window; `activatedVariant` distinguishes the
"wurde in einem anderen Fenster aktiviert" wording from the
"ist in einem anderen Fenster aktiv" wording. -/
structure DisableMessage where
  otherId : String
  activatedVariant : Bool
deriving DecidableEq, Repr

/-- AutoBid.getDisableMessage: the variant choice is
`if (simulation || autoBidEnabled === false)`. -/
def getDisableMessage (otherId : String) (autoBidEnabled simulation : Bool) :
    DisableMessage :=
  { otherId := otherId, activatedVariant := !(simulation || autoBidEnabled = false) }

/-- The info object returned by `AutoBid.getState`. -/
structure StateInfo where
  autoBidEnabled : Bool
  simulation : Bool
  id : Option String
  messageHtml : Option DisableMessage
deriving DecidableEq, Repr

/-- JS `info.autoBid` inside `AutoBid.getState` (line 253): the info object
is the defaults merged with the session-storage record, which carries only
`autoBidEnabled`, `simulation` and `articlesTableLength` keys — never
`autoBid` — so the access yields `undefined`. -/
def infoAutoBidField : Option Bool := none

/-- JS strict comparison `x === true` for a possibly-undefined boolean. -/
def jsEqTrueOpt : Option Bool → Bool
  | some b => b
  | none => false

/-- AutoBid.getState (lines 242-259) as a pure function of the local state,
the stored SETTINGS record and this window's id. The second component
records the argument of the `AutoBid.setLocalState` call when one is made
(the code passes only `autoBidEnabled`; the omitted `simulation` argument is
`undefined` and is dropped again by `JSON.stringify`). -/
def getState (localInfo : LocalState) (stored : Option Settings) (myId : String) :
    StateInfo × Option Bool :=
  let syncInfo := getSyncState stored
  let info : StateInfo :=
    { autoBidEnabled := localInfo.autoBidEnabled, simulation := localInfo.simulation,
      id := none, messageHtml := none }
  match syncInfo.id with
  | some otherId =>
    if otherId ≠ myId then
      let info1 := { info with
        messageHtml := some (getDisableMessage otherId info.autoBidEnabled info.simulation) }
      if info1.simulation = false || jsEqTrueOpt infoAutoBidField then
        ({ info1 with autoBidEnabled := false }, some false)
      else
        (info1, none)
    else (info, none)
  | none => (info, none)

/-- AutoBid.setState (lines 264-277): always set the local state; write the
synced record via `setSyncState(autoBidEnabled)` only when
`simulation === false`. Returns the new local state and the stored SETTINGS
record after the call. -/
def setState (autoBidEnabled simulation : Bool) (stored : Option Settings)
    (myId : String) (now : Int) : LocalState × Option Settings :=
  ( { autoBidEnabled := autoBidEnabled, simulation := simulation },
    if simulation = false then
      some (setSyncState stored myId (some autoBidEnabled) now)
    else stored )

/-- A storage change notification for the SETTINGS key
(`{oldValue, newValue}`). -/
structure SettingsChange where
  oldValue : Option Settings
  newValue : Option Settings
deriving DecidableEq, Repr

/-- JS `newValue.length` in `AutoBid.checkChangeIsRelevant` (line 402): the
`newValue` of a SETTINGS change is the stored settings record, a plain
object, which has no `length` own property — the access yields
`undefined`. -/
def settingsLength (_nv : Settings) : Option Nat := none

/-- JS `x > 0` where `x` may be `undefined`: `undefined > 0` is false (NaN
comparison). -/
def jsGtZeroOpt : Option Nat → Bool
  | some n => decide (0 < n)
  | none => false

/-- JS `AutoBid.hasOwnProperty('beWindowId')`: the class property is
declared with a static initializer (`AutoBid.beWindowId = null`, line 424),
so the property always exists. -/
def hasOwnBeWindowId : Bool := true

/-- JS strict equality on two possibly-null strings (`null === null` is
true). -/
def jsStrictEqOptStr (a b : Option String) : Bool :=
  match a, b with
  | some x, some y => x = y
  | none, none => true
  | _, _ => false

/-- AutoBid.checkChangeIsRelevant (lines 396-411). `beWindowId` is the
cached window id (null until `AutoBid.getId` ran). The guard
`newValue.length > 0 && ... && newValue.autoBid.id === AutoBid.beWindowId`
short-circuits on its first conjunct (see `settingsLength`); the
`newValue.autoBid.id` access — which would throw when `autoBid` is absent —
is therefore never reached and is modelled totally via `Option.bind`. -/
def checkChangeIsRelevant (change : SettingsChange) (beWindowId : Option String) :
    Bool :=
  match change.newValue with
  | none => true
  | some nv =>
    if jsGtZeroOpt (settingsLength nv) && hasOwnBeWindowId &&
        jsStrictEqOptStr (nv.autoBid.bind AutoBidEntry.id) beWindowId then
      false
    else
      true

/-! ## Bid-time deconfliction: Article.getAdjustedBidTime (popup.js 899-939)

The target's fields `this.articleId` and `this.articleEndTime` are the
`selfId` / `selfEnd` parameters; `rows` is the data of the article table in
row order. `Object.filter` keeps the table-index keys whose article passes
the predicate, producing a plain object; the embedding keeps those keys as
the `Nat` first components. `articleId` values are the numeric values of
the eBay article-id strings (the sort comparator subtracts them
numerically, `findKey` compares them for equality). -/

/-- A row of the article table, restricted to the two fields
`getAdjustedBidTime` reads. `articleEndTime` is absent (`none`) for
non-timed listings. -/
structure TableArticle where
  articleId : Nat
  articleEndTime : Option Int
deriving DecidableEq, Repr

/-- The `Object.filter` predicate (lines 913-916): the article has an
`articleEndTime` and `Math.abs(article.articleEndTime - this.articleEndTime) < 1000`. -/
def isCoEnding (a : TableArticle) (selfEnd : Int) : Bool :=
  match a.articleEndTime with
  | some t => decide ((t - selfEnd).natAbs < 1000)
  | none => false

/-- The filtered object: table indices (the object keys) paired with their
articles, restricted to co-ending articles. -/
def objFilterCoEnding (rows : List TableArticle) (selfEnd : Int) :
    List (Nat × TableArticle) :=
  rows.enum.filter (fun p => isCoEnding p.2 selfEnd)

/-- Stable insertion of a keyed article into a list sorted by ascending
numeric `articleId` (the JS comparator `filtered[a].articleId - filtered[b].articleId`). -/
def insertPair (p : Nat × TableArticle) :
    List (Nat × TableArticle) → List (Nat × TableArticle)
  | [] => [p]
  | q :: rest =>
      if p.2.articleId ≤ q.2.articleId then p :: q :: rest else q :: insertPair p rest

/-- Stable sort by ascending numeric `articleId`; JS `Array.prototype.sort`
with a consistent comparator is required to produce exactly the stable
sorted permutation, which insertion sort computes. -/
def sortPairs : List (Nat × TableArticle) → List (Nat × TableArticle)
  | [] => []
  | p :: rest => insertPair p (sortPairs rest)

/-- The source's `findKey` helper (lines 925-933): scan all entries in key
order and return the key of the last one whose `articleId` strictly equals
the target's, or null. -/
def findKey (obj : List (Nat × TableArticle)) (selfId : Nat) : Option Nat :=
  obj.foldl (fun acc p => if p.2.articleId = selfId then some p.1 else acc) none

/-- JS `Array.prototype.indexOf`: index of the first occurrence, `-1` when
absent. -/
def jsIndexOf : List Nat → Nat → Int
  | [], _ => -1
  | k :: rest, key =>
      if k = key then 0
      else
        let r := jsIndexOf rest key
        if r = -1 then -1 else r + 1

/-- JS `keys.indexOf(idx)` where `idx` may be null (`findKey` found
nothing): `indexOf(null)` on a list of numeric keys is `-1`. -/
def jsIndexOfOpt (keys : List Nat) (k : Option Nat) : Int :=
  match k with
  | some key => jsIndexOf keys key
  | none => -1

/-- JS `filtered.length` (line 919): `filtered` is a plain object built by
`reduce`/`Object.assign`, not an array, so it has no `length` own property
and the access yields `undefined`; `undefined === 1` is false, hence the
early-return branch of the source never fires. -/
def objLength (_obj : List (Nat × TableArticle)) : Option Nat := none

/-- Article.getAdjustedBidTime (lines 899-939) for a target with article id
`selfId` and end time `selfEnd`, over the table rows `rows`. Returns
`this.articleEndTime - ((keys.indexOf(idx) * 2) * 1000)`. -/
def getAdjustedBidTime (selfId : Nat) (selfEnd : Int) (rows : List TableArticle) :
    Int :=
  let filtered := objFilterCoEnding rows selfEnd
  if objLength filtered = some 1 then selfEnd
  else
    let keys := (sortPairs filtered).map Prod.fst
    let idx := findKey filtered selfId
    selfEnd - (jsIndexOfOpt keys idx * 2) * 1000

/-- The number of tracked articles that co-end with the target and have a
numerically smaller article id — the target's 0-based rank in the
ascending-id ordering of the co-ending articles, when ids are distinct. -/
def coEndingSmallerCount (rows : List TableArticle) (selfId : Nat) (selfEnd : Int) :
    Nat :=
  rows.countP (fun a => decide (a.articleId < selfId) && isCoEnding a selfEnd)

/-! ## Boring-article eviction: ArticlesTable.removeArticleIfBoring
(popup.js 1492-1514) -/

/-- The durable stored record for an article, restricted to the two fields
`removeArticleIfBoring` reads. `articleMaxBid` distinguishes an absent key
(outer `none`; the code tests `hasOwnProperty('articleMaxBid')`) from a
stored null (inner `none`); `articleGroup` is only tested with `!= null`,
on which absent and null coincide. -/
structure StoredArticleRecord where
  articleMaxBid : Option (Option ℚ)
  articleGroup : Option String
deriving DecidableEq

/-- A row of the article table, restricted to the fields
`removeArticleIfBoring` touches. -/
structure RowArticle where
  articleId : String
  tabId : Option Int
deriving DecidableEq, Repr

/-- ArticlesTable.getArticleIdByTabId (lines 1935-1943): iterate all rows
and keep the article id of the last row whose `tabId` strictly equals the
given tab id. -/
def getArticleIdByTabId (rows : List RowArticle) (tabId : Int) : Option String :=
  rows.foldl (fun acc a => if a.tabId = some tabId then some a.articleId else acc) none

/-- The keep test of `removeArticleIfBoring` (lines 1503-1504):
`storageInfo != null && storageInfo.hasOwnProperty('articleMaxBid') &&
(storageInfo.articleMaxBid != null || storageInfo.articleGroup != null)`. -/
def keepArticle (storageInfo : Option StoredArticleRecord) : Bool :=
  match storageInfo with
  | none => false
  | some s =>
    match s.articleMaxBid with
    | none => false
    | some mb => mb.isSome || s.articleGroup.isSome

/-- ArticlesTable.removeArticleIfBoring: find the article of the closed
tab, null its `tabId` on the row object, then keep or remove the row based
on the stored record (`storage` is the synchronized tier, keyed by article
id; `Article.getInfoFromStorage` returns the raw stored record). -/
def removeArticleIfBoring (rows : List RowArticle) (tabId : Int)
    (storage : String → Option StoredArticleRecord) : List RowArticle :=
  match getArticleIdByTabId rows tabId with
  | none => rows
  | some articleId =>
    let rows1 := rows.map (fun a =>
      if a.articleId = articleId then { a with tabId := none } else a)
    if keepArticle (storage articleId) then rows1
    else rows1.filter (fun a => ¬ a.articleId = articleId)

/-- The retention condition of the eviction rule stated record-side: the
stored record exists, carries an `articleMaxBid` key, and has a non-null
max bid or a non-null group. -/
def KeepP (storageInfo : Option StoredArticleRecord) : Prop :=
  ∃ s, storageInfo = some s ∧ (∃ mb, s.articleMaxBid = some mb) ∧
    (s.articleMaxBid ≠ some none ∨ s.articleGroup ≠ none)

/-! ## The maxBid clamp (popup.js 2292-2301)

The `inpMaxBid_` change handler parses the entered value and then runs
`if (hasOwnProperty('articleBuyPrice') && maxBid > buyPrice) maxBid = buyPrice - 0.01;
else if (hasOwnProperty('articleMinimumBid') && maxBid < minimumBid) maxBid = minimumBid;`.
Monetary values are modelled as `ℚ`; `none` models an article without the
respective field. -/

/-- The clamp applied to an entered max bid before it is stored. -/
def clampMaxBid (entered : ℚ) (articleBuyPrice articleMinimumBid : Option ℚ) : ℚ :=
  match articleBuyPrice with
  | some buy =>
    if entered > buy then buy - 1 / 100
    else
      match articleMinimumBid with
      | some minB => if entered < minB then minB else entered
      | none => entered
  | none =>
    match articleMinimumBid with
    | some minB => if entered < minB then minB else entered
    | none => entered

/-! ## Concrete instances used by counterexamples and witnesses -/

/-- A stale synced owner record: owned by window `ext:1`, timestamp 0. -/
def staleSettings : Settings :=
  { autoBid := some { id := some "ext:1", autoBidEnabled := some true, timestamp := some 0 },
    other := [] }

/-- What the sweep by window `ext:2` at time 301000 actually stores: a fresh
`autoBid` entry naming the sweeping window, with `autoBidEnabled: null`. -/
def ghostSettings : Settings :=
  { autoBid := some { id := some "ext:2", autoBidEnabled := none, timestamp := some 301000 },
    other := [] }

/-- A SETTINGS change whose new value carries this very window's own id — a
self-triggered echo. -/
def selfEchoChange : SettingsChange :=
  { oldValue := some { autoBid := some { id := some "w:1", autoBidEnabled := some true, timestamp := some 1000 }, other := [] },
    newValue := some { autoBid := some { id := some "w:1", autoBidEnabled := some true, timestamp := some 2000 }, other := [] } }

/-- Three articles all ending at time 0, with ids 100 < 200 < 300. -/
def rows3 : List TableArticle :=
  [ { articleId := 100, articleEndTime := some 0 },
    { articleId := 200, articleEndTime := some 0 },
    { articleId := 300, articleEndTime := some 0 } ]

/-- A one-article table whose article `"1"` is open in tab 7. -/
def rowsCx : List RowArticle := [{ articleId := "1", tabId := some 7 }]

/-- Storage holding, for article `"1"`, a record with a group set but no
`articleMaxBid` key at all. -/
def storageCx : String → Option StoredArticleRecord := fun i =>
  if i = "1" then some { articleMaxBid := none, articleGroup := some "g" } else none

/-- Storage holding, for article `"1"`, a record with a max bid of 5 and no
group. -/
def storageW : String → Option StoredArticleRecord := fun i =>
  if i = "1" then some { articleMaxBid := some (some 5), articleGroup := none } else none

/-! # Theorems -/

/-! ## JS object lemmas -/

theorem getK_jsSet_self {V : Type} (o : JsObj V) (k : String) (v : V) :
    getK (jsSet o k v) k = some v := by
  induction o with
  | nil => simp [jsSet, getK]
  | cons p rest ih =>
    by_cases h : p.1 = k
    · simp [jsSet, h, getK]
    · simp [jsSet, h, getK, ih]

theorem getK_jsSet_ne {V : Type} (o : JsObj V) (k' k : String) (v : V)
    (h : k' ≠ k) : getK (jsSet o k' v) k = getK o k := by
  induction o with
  | nil => simp [jsSet, getK, h]
  | cons p rest ih =>
    by_cases hp : p.1 = k'
    · simp [jsSet, hp, getK, h]
    · simp [jsSet, hp, getK, ih]

theorem getK_jsDelete_self {V : Type} (o : JsObj V) (k : String) :
    getK (jsDelete o k) k = none := by
  induction o with
  | nil => simp [jsDelete, getK]
  | cons p rest ih =>
    by_cases hp : p.1 = k
    · simp [jsDelete, hp, ih]
    · simp [jsDelete, hp, getK, ih]

theorem getK_jsDelete_ne {V : Type} (o : JsObj V) (k' k : String) (h : k' ≠ k) :
    getK (jsDelete o k') k = getK o k := by
  induction o with
  | nil => simp [jsDelete]
  | cons p rest ih =>
    obtain ⟨a, b⟩ := p
    by_cases hp : a = k'
    · have hpk : a ≠ k := by rw [hp]; exact h
      rw [show jsDelete ((a, b) :: rest) k' = jsDelete rest k' by simp [jsDelete, hp],
          ih, getK, if_neg hpk]
    · rw [show jsDelete ((a, b) :: rest) k' = (a, b) :: jsDelete rest k' by
            simp [jsDelete, hp]]
      by_cases hak : a = k
      · rw [getK, if_pos hak, getK, if_pos hak]
      · rw [getK, if_neg hak, getK, if_neg hak, ih]

theorem getK_jsAssign_none {V : Type} (t s : JsObj V) (k : String)
    (ht : getK t k = none) (hs : getK s k = none) :
    getK (jsAssign t s) k = none := by
  induction s generalizing t with
  | nil => simpa [jsAssign] using ht
  | cons p rest ih =>
    have hp : p.1 ≠ k := by
      intro h
      rw [getK, if_pos h] at hs
      · exact Option.noConfusion hs
    have hrest : getK rest k = none := by
      rw [getK, if_neg hp] at hs; exact hs
    have step : jsAssign t (p :: rest) = jsAssign (jsSet t p.1 p.2) rest := by
      simp [jsAssign]
    rw [step]
    exact ih (jsSet t p.1 p.2) (by rw [getK_jsSet_ne t p.1 k p.2 hp]; exact ht) hrest

/-! ## convertKeys lemmas -/

theorem convertStep_of_none {V : Type} (p : JsObj V × Nat) (sk lk : String)
    (h : getK p.1 sk = none) : convertStep p sk lk = p := by
  simp [convertStep, h]

theorem getK_convertStep_short {V : Type} (p : JsObj V × Nat) (sk lk : String) :
    getK (convertStep p sk lk).1 sk = none := by
  cases h : getK p.1 sk with
  | none => simp [convertStep, h]
  | some v => simp [convertStep, h, getK_jsDelete_self]

theorem getK_convertStep_none {V : Type} (p : JsObj V × Nat) (sk lk k : String)
    (hlk : k ≠ lk) (h : getK p.1 k = none) :
    getK (convertStep p sk lk).1 k = none := by
  cases hs : getK p.1 sk with
  | none => simp [convertStep, hs, h]
  | some v =>
    by_cases hksk : k = sk
    · subst hksk
      simp [convertStep, hs, getK_jsDelete_self]
    · have hne : sk ≠ k := fun hh => hksk hh.symm
      simp only [convertStep, hs]
      rw [getK_jsDelete_ne _ sk k hne, getK_jsSet_ne _ lk k v (fun hh => hlk hh.symm)]
      exact h

theorem noShortKeys_convertKeys {V : Type} (o : JsObj V) :
    noShortKeys (convertKeys o).1 := by
  unfold convertKeys
  refine ⟨?_, ?_, ?_, ?_, ?_, ?_, ?_⟩ <;>
  · repeat
      first
        | exact getK_convertStep_short _ _ _
        | refine getK_convertStep_none _ _ _ _ (by decide) ?_

theorem convertKeys_of_noShort {V : Type} (o : JsObj V) (h : noShortKeys o) :
    convertKeys o = (o, 0) := by
  obtain ⟨h1, h2, h3, h4, h5, h6, h7⟩ := h
  unfold convertKeys
  rw [convertStep_of_none (o, 0) "autoBid" _ h1,
      convertStep_of_none (o, 0) "minBid" _ h2,
      convertStep_of_none (o, 0) "maxBid" _ h3,
      convertStep_of_none (o, 0) "description" _ h4,
      convertStep_of_none (o, 0) "endTime" _ h5,
      convertStep_of_none (o, 0) "bidPrice" _ h6,
      convertStep_of_none (o, 0) "group" _ h7]

/-- C7: legacy key translation is idempotent — on a record containing none
of the short field names (maxBid, minBid, endTime, bidPrice, group,
description, autoBid) `Article.convertKeys` leaves the record identical and
reports zero conversions, and consequently applying the translation twice
produces the same record as applying it once. -/
theorem convertKeys_idempotent {V : Type} (o : JsObj V) :
    (noShortKeys o → convertKeys o = (o, 0)) ∧
    convertKeys (convertKeys o).1 = ((convertKeys o).1, 0) :=
  ⟨convertKeys_of_noShort o, convertKeys_of_noShort _ (noShortKeys_convertKeys o)⟩

/-- Witness for C7 at a concrete already-translated record. -/
theorem convertKeys_idempotent_witness :
    noShortKeys ([("articleMaxBid", 5)] : JsObj Nat) ∧
    convertKeys ([("articleMaxBid", 5)] : JsObj Nat) = ([("articleMaxBid", 5)], 0) :=
  ⟨by decide, (convertKeys_idempotent [("articleMaxBid", 5)]).1 (by decide)⟩

/-! ## updateInfoInStorage: the transient keys (C10) -/

theorem getK_convertKeys_none {V : Type} (o : JsObj V) (k : String)
    (hk : k ≠ "articleAutoBid" ∧ k ≠ "articleMinBid" ∧ k ≠ "articleMaxBid" ∧
      k ≠ "articleDescription" ∧ k ≠ "articleEndTime" ∧ k ≠ "articleBidPrice" ∧
      k ≠ "articleGroup")
    (h : getK o k = none) : getK (convertKeys o).1 k = none := by
  obtain ⟨k1, k2, k3, k4, k5, k6, k7⟩ := hk
  unfold convertKeys
  exact getK_convertStep_none _ _ _ _ k7 (getK_convertStep_none _ _ _ _ k6
    (getK_convertStep_none _ _ _ _ k5 (getK_convertStep_none _ _ _ _ k4
      (getK_convertStep_none _ _ _ _ k3 (getK_convertStep_none _ _ _ _ k2
        (getK_convertStep_none _ _ _ _ k1 h))))))

/-- C10: for every incoming update, the per-article record that
`Article.updateInfoInStorage` writes to synchronized storage carries none of
the window-local transient keys `popup`, `tabId` and `articleDetailsShown`
(which are deleted from `newStoredInfo` before the merge), provided the
previously stored record — the only other contributor to the merge — does
not carry them either; this holds even though the keys are present on the
in-memory article object that is assigned over the record. -/
theorem updateInfoInStorage_strips_transient_keys {V : Type}
    (oldStored : Option (JsObj V)) (info articleFields : JsObj V)
    (hOld : optGetK oldStored "popup" = none ∧ optGetK oldStored "tabId" = none ∧
      optGetK oldStored "articleDetailsShown" = none) :
    getK (updateInfoInStorageMerged oldStored info articleFields) "popup" = none ∧
    getK (updateInfoInStorageMerged oldStored info articleFields) "tabId" = none ∧
    getK (updateInfoInStorageMerged oldStored info articleFields) "articleDetailsShown" = none := by
  obtain ⟨hp, ht, hd⟩ := hOld
  unfold updateInfoInStorageMerged
  have hOldK : ∀ k : String,
      (k ≠ "articleAutoBid" ∧ k ≠ "articleMinBid" ∧ k ≠ "articleMaxBid" ∧
        k ≠ "articleDescription" ∧ k ≠ "articleEndTime" ∧ k ≠ "articleBidPrice" ∧
        k ≠ "articleGroup") →
      optGetK oldStored k = none →
      getK (match oldStored with
            | some o => (convertKeys o).1
            | none => ([] : JsObj V)) k = none := by
    intro k hk hnone
    cases oldStored with
    | none => simp [getK]
    | some o => exact getK_convertKeys_none o k hk hnone
  refine ⟨?_, ?_, ?_⟩ <;>
  · apply getK_jsAssign_none
    · apply getK_jsAssign_none
      · rfl
      · first
          | exact hOldK "popup" (by decide) hp
          | exact hOldK "tabId" (by decide) ht
          | exact hOldK "articleDetailsShown" (by decide) hd
    · first
        | -- popup: deleted first, preserved by the two later deletions
          rw [getK_jsDelete_ne _ "articleDetailsShown" "popup" (by decide),
              getK_jsDelete_ne _ "tabId" "popup" (by decide)]
          exact getK_jsDelete_self _ "popup"
        | -- tabId: deleted second, preserved by the last deletion
          rw [getK_jsDelete_ne _ "articleDetailsShown" "tabId" (by decide)]
          exact getK_jsDelete_self _ "tabId"
        | -- articleDetailsShown: deleted last
          exact getK_jsDelete_self _ "articleDetailsShown"

/-- Witness for C10 at a concrete stored record, update and article
object. -/
theorem updateInfoInStorage_strips_transient_keys_witness :
    (optGetK (some [("articleMaxBid", 1)] : Option (JsObj Nat)) "popup" = none ∧
     optGetK (some [("articleMaxBid", 1)] : Option (JsObj Nat)) "tabId" = none ∧
     optGetK (some [("articleMaxBid", 1)] : Option (JsObj Nat)) "articleDetailsShown" = none) ∧
    getK (updateInfoInStorageMerged (some [("articleMaxBid", 1)])
      [("maxBid", 2)] [("popup", 9), ("tabId", 3), ("articleDetailsShown", 4)]) "tabId" = none :=
  ⟨by decide,
   (updateInfoInStorage_strips_transient_keys (some [("articleMaxBid", 1)])
      [("maxBid", 2)] [("popup", 9), ("tabId", 3), ("articleDetailsShown", 4)]
      (by decide)).2.1⟩

/-! ## AutoBid arbitration claims -/

/-- C1 (code bug): the liveness sweep does NOT delete a stale synced owner
record. `removeDeadAutoBid`, observing the record `{id: "ext:1",
autoBidEnabled: true, timestamp: 0}` from window `"ext:2"` at time 301000
(age 301s > 300s), calls `setSyncState(null)`, whose `autoBidEnabled == null`
branch deletes `autoBid` from the local `oldSettings` variable but then
stores the freshly built `newSettings` object — so after the sweep the
stored SETTINGS record still contains an `autoBid` owner entry, now naming
the sweeping window with `autoBidEnabled: null` and a fresh timestamp,
contradicting the claim (and the source's own comments at lines 220 and
375) that the outdated entry is removed. -/
theorem removeDeadAutoBid_keeps_an_entry :
    removeDeadAutoBid (some staleSettings) "ext:2" 301000 = some ghostSettings ∧
    ghostSettings.autoBid ≠ none := by
  constructor
  · rfl
  · decide

/-- C2: the explicit-disable path of `AutoBid.setSyncState`
(`autoBidEnabled === false`) deletes the synced `autoBid` entry exactly when
the stored owner id equals the disabling window's own id, and stores the old
record entirely unchanged when the stored owner id differs — a window never
clears another window's claim through the disable path. -/
theorem setSyncState_disable_takeover_safe (stored : Settings) (myId : String)
    (now : Int) (e : AutoBidEntry) (he : stored.autoBid = some e) :
    (e.id = some myId →
      setSyncState (some stored) myId (some false) now = { stored with autoBid := none }) ∧
    (e.id ≠ some myId →
      setSyncState (some stored) myId (some false) now = stored) := by
  constructor
  · intro hmine
    simp [setSyncState, he, hmine]
  · intro hother
    simp [setSyncState, he, hother]

/-- Witness for C2: window `"me"` disabling while the record is owned by
`"other"` leaves the stored record unchanged. -/
theorem setSyncState_disable_takeover_safe_witness :
    setSyncState
      (some { autoBid := some { id := some "other", autoBidEnabled := some true, timestamp := some 5 }, other := [] })
      "me" (some false) 9
    = { autoBid := some { id := some "other", autoBidEnabled := some true, timestamp := some 5 }, other := [] } :=
  (setSyncState_disable_takeover_safe _ "me" 9 _ rfl).2 (by decide)

/-- C3: whenever `AutoBid.getState` observes a synced owner id that is
non-null and different from this window's identity, the returned info
carries the advisory message naming the other window, and — unless this
window is simulating — the returned info has `autoBidEnabled = false` and
`AutoBid.setLocalState(false)` is invoked to persist the forced
disablement. -/
theorem getState_preemption (localInfo : LocalState) (stored : Option Settings)
    (myId otherId : String) (hid : (getSyncState stored).id = some otherId)
    (hne : otherId ≠ myId) :
    (∃ m, (getState localInfo stored myId).1.messageHtml = some m ∧ m.otherId = otherId) ∧
    (localInfo.simulation = false →
      (getState localInfo stored myId).1.autoBidEnabled = false ∧
      (getState localInfo stored myId).2 = some false) := by
  constructor
  · refine ⟨getDisableMessage otherId localInfo.autoBidEnabled localInfo.simulation, ?_, rfl⟩
    by_cases hsim : localInfo.simulation = false
    · simp [getState, hid, hne, hsim]
    · simp [getState, hid, hne, hsim, jsEqTrueOpt, infoAutoBidField]
  · intro hsim
    constructor
    · simp [getState, hid, hne, hsim]
    · simp [getState, hid, hne, hsim]

/-- Witness for C3: a window with local auto-bid enabled, not simulating,
observing the record owned by `"w:2"`. -/
theorem getState_preemption_witness :
    ((getState { autoBidEnabled := true, simulation := false }
        (some { autoBid := some { id := some "w:2", autoBidEnabled := some true, timestamp := some 1 }, other := [] })
        "w:1").1.autoBidEnabled = false) ∧
    (∃ m, (getState { autoBidEnabled := true, simulation := false }
        (some { autoBid := some { id := some "w:2", autoBidEnabled := some true, timestamp := some 1 }, other := [] })
        "w:1").1.messageHtml = some m ∧ m.otherId = "w:2") := by
  have h := getState_preemption { autoBidEnabled := true, simulation := false }
    (some { autoBid := some { id := some "w:2", autoBidEnabled := some true, timestamp := some 1 }, other := [] })
    "w:1" "w:2" rfl (by decide)
  exact ⟨(h.2 rfl).1, h.1⟩

/-- C8 (code bug): `AutoBid.checkChangeIsRelevant` reports a self-triggered
echo — a change whose new owner id equals this window's own id — as
relevant. The guard `newValue.length > 0` reads the `length` property of
the stored SETTINGS record, a plain object without one, so the comparison
is `undefined > 0` = false and the function returns true for every change
that has a `newValue`; the claim (and the source's own log message "Change
is not relevant for this id") requires false exactly in this situation. -/
theorem checkChangeIsRelevant_self_echo :
    (selfEchoChange.newValue.bind (fun nv => nv.autoBid.bind AutoBidEntry.id))
      = some "w:1" ∧
    checkChangeIsRelevant selfEchoChange (some "w:1") = true := by
  constructor
  · rfl
  · rfl

/-- C9: `AutoBid.setState` invoked with `simulation = true` never writes the
synchronized storage — the stored SETTINGS record after the call is exactly
the record before it, for every prior record, window id, requested flag and
time. -/
theorem setState_simulation_no_sync_write (autoBidEnabled : Bool)
    (stored : Option Settings) (myId : String) (now : Int) :
    (setState autoBidEnabled true stored myId now).2 = stored := rfl

/-! ## Boring-article eviction (C5) -/

theorem getArticleIdByTabId_mem (rows : List RowArticle) (tabId : Int)
    (articleId : String) (h : getArticleIdByTabId rows tabId = some articleId) :
    ∃ a ∈ rows, a.articleId = articleId ∧ a.tabId = some tabId := by
  have aux : ∀ (l : List RowArticle) (acc : Option String),
      l.foldl (fun acc a => if a.tabId = some tabId then some a.articleId else acc) acc
        = some articleId →
      (∃ a ∈ l, a.articleId = articleId ∧ a.tabId = some tabId) ∨ acc = some articleId := by
    intro l
    induction l with
    | nil => intro acc hacc; exact Or.inr hacc
    | cons a rest ih =>
      intro acc hacc
      rcases ih _ hacc with hex | hstep
      · obtain ⟨b, hb, hb1, hb2⟩ := hex
        exact Or.inl ⟨b, List.mem_cons_of_mem a hb, hb1, hb2⟩
      · have hstep' : (if a.tabId = some tabId then some a.articleId else acc)
            = some articleId := hstep
        by_cases htab : a.tabId = some tabId
        · rw [if_pos htab] at hstep'
          exact Or.inl ⟨a, List.mem_cons_self a rest, Option.some_injective _ hstep', htab⟩
        · rw [if_neg htab] at hstep'
          exact Or.inr hstep'
  rcases aux rows none h with hex | habs
  · exact hex
  · exact Option.noConfusion habs

theorem keepArticle_iff (storageInfo : Option StoredArticleRecord) :
    keepArticle storageInfo = true ↔ KeepP storageInfo := by
  cases storageInfo with
  | none =>
    constructor
    · intro h; exact absurd h (by simp [keepArticle])
    · rintro ⟨s, hs, -⟩; exact Option.noConfusion hs
  | some s =>
    constructor
    · intro h
      cases hmb : s.articleMaxBid with
      | none => simp [keepArticle, hmb] at h
      | some mb =>
        have h2 : mb.isSome = true ∨ s.articleGroup.isSome = true := by
          have h3 : (mb.isSome || s.articleGroup.isSome) = true := by
            simpa [keepArticle, hmb] using h
          simpa using h3
        refine ⟨s, rfl, ⟨mb, hmb⟩, ?_⟩
        rcases h2 with h3 | h3
        · left
          rw [hmb]
          intro hcon
          injection hcon with hcon2
          rw [hcon2] at h3
          simp at h3
        · right
          intro hcon
          rw [hcon] at h3
          simp at h3
    · rintro ⟨t, ht, ⟨mb, hmb⟩, hor⟩
      obtain rfl := Option.some_injective _ ht
      simp only [keepArticle, hmb]
      rcases hor with h1 | h1
      · rw [hmb] at h1
        cases mb with
        | none => exact absurd rfl h1
        | some q => simp
      · cases hg : s.articleGroup with
        | none => exact absurd hg h1
        | some g => simp [hg]

/-- Counterexample for C5: a stored record whose `articleGroup` is set
(non-null) but which carries no `articleMaxBid` key at all — its article is
removed from the tracked set by `removeArticleIfBoring`, although the claim
demands that a record with a group set be retained. The
`storageInfo.hasOwnProperty('articleMaxBid')` conjunct of the keep test
(line 1503) makes retention depend on the mere presence of that key. -/
theorem removeArticleIfBoring_group_only_removed :
    (∃ s, storageCx "1" = some s ∧ s.articleGroup = some "g" ∧ s.articleMaxBid = none) ∧
    removeArticleIfBoring rowsCx 7 storageCx = [] :=
  ⟨⟨_, rfl, rfl, rfl⟩, rfl⟩

/-- C5 as amended: when a tab closes, the article bound to it keeps its row
(with `tabId` nulled) exactly when the stored durable record exists, carries
the `articleMaxBid` key, and has a non-null max bid or a non-null group;
otherwise — including a record that lacks the `articleMaxBid` key even if a
group is set — the row is removed from the tracked set. Rows of other
articles are untouched. -/
theorem removeArticleIfBoring_spec (rows : List RowArticle) (tabId : Int)
    (storage : String → Option StoredArticleRecord) (articleId : String)
    (hfound : getArticleIdByTabId rows tabId = some articleId) :
    (KeepP (storage articleId) →
      (∃ a ∈ removeArticleIfBoring rows tabId storage,
        a.articleId = articleId ∧ a.tabId = none) ∧
      (removeArticleIfBoring rows tabId storage).length = rows.length) ∧
    (¬ KeepP (storage articleId) →
      ∀ a ∈ removeArticleIfBoring rows tabId storage, a.articleId ≠ articleId) ∧
    (∀ a ∈ removeArticleIfBoring rows tabId storage, a.articleId = articleId → a.tabId = none) ∧
    (∀ a : RowArticle, a.articleId ≠ articleId →
      (a ∈ removeArticleIfBoring rows tabId storage ↔ a ∈ rows)) := by
  have hmap_mem : ∀ a : RowArticle, a.articleId ≠ articleId →
      ((a ∈ rows.map (fun b =>
          if b.articleId = articleId then { b with tabId := none } else b)) ↔ a ∈ rows) := by
    intro a hne
    constructor
    · intro hm
      rcases List.mem_map.mp hm with ⟨b, hb, hfb⟩
      by_cases hbid : b.articleId = articleId
      · rw [if_pos hbid] at hfb
        exact absurd (by rw [← hfb]; exact hbid) hne
      · rw [if_neg hbid] at hfb
        rw [← hfb]; exact hb
    · intro hm
      have : (if a.articleId = articleId then { a with tabId := none } else a) = a :=
        if_neg hne
      rw [← this]
      exact List.mem_map_of_mem _ hm
  have hmap_id : ∀ a, a ∈ rows.map (fun b =>
      if b.articleId = articleId then { b with tabId := none } else b) →
      a.articleId = articleId → a.tabId = none := by
    intro a hm hid
    rcases List.mem_map.mp hm with ⟨b, hb, hfb⟩
    by_cases hbid : b.articleId = articleId
    · rw [if_pos hbid] at hfb
      rw [← hfb]
    · rw [if_neg hbid] at hfb
      rw [← hfb] at hid
      exact absurd hid hbid
  by_cases hk : keepArticle (storage articleId) = true
  · have hr : removeArticleIfBoring rows tabId storage
        = rows.map (fun b =>
            if b.articleId = articleId then { b with tabId := none } else b) := by
      simp [removeArticleIfBoring, hfound, hk]
    refine ⟨?_, ?_, ?_, ?_⟩
    · intro _
      obtain ⟨a0, ha0, hid0, htab0⟩ := getArticleIdByTabId_mem rows tabId articleId hfound
      constructor
      · refine ⟨{ a0 with tabId := none }, ?_, hid0, rfl⟩
        rw [hr]
        have : (if a0.articleId = articleId then { a0 with tabId := none } else a0)
            = { a0 with tabId := none } := if_pos hid0
        rw [← this]
        exact List.mem_map_of_mem _ ha0
      · rw [hr, List.length_map]
    · intro hnk
      exact absurd ((keepArticle_iff (storage articleId)).mp hk) hnk
    · rw [hr]; exact hmap_id
    · intro a hne; rw [hr]; exact hmap_mem a hne
  · have hr : removeArticleIfBoring rows tabId storage
        = (rows.map (fun b =>
            if b.articleId = articleId then { b with tabId := none } else b)).filter
          (fun a => ¬ a.articleId = articleId) := by
      simp only [removeArticleIfBoring, hfound]
      rw [if_neg hk]
    refine ⟨?_, ?_, ?_, ?_⟩
    · intro hkp
      exact absurd ((keepArticle_iff (storage articleId)).mpr hkp) hk
    · intro _ a ha
      rw [hr] at ha
      have := List.of_mem_filter ha
      simpa using this
    · intro a ha hid
      rw [hr] at ha
      have := List.of_mem_filter ha
      simp [hid] at this
    · intro a hne
      rw [hr]
      rw [List.mem_filter]
      constructor
      · intro h1
        exact (hmap_mem a hne).mp h1.1
      · intro h1
        exact ⟨(hmap_mem a hne).mpr h1, by simpa using hne⟩

/-- Witness for C5 (amended) at a concrete table and stored record with a
max bid set: the article is retained with `tabId` nulled. -/
theorem removeArticleIfBoring_spec_witness :
    KeepP (storageW "1") ∧
    ∃ a ∈ removeArticleIfBoring rowsCx 7 storageW, a.articleId = "1" ∧ a.tabId = none := by
  have hkeep : KeepP (storageW "1") :=
    ⟨{ articleMaxBid := some (some 5), articleGroup := none }, rfl,
     ⟨some 5, rfl⟩, Or.inl (by simp)⟩
  exact ⟨hkeep, ((removeArticleIfBoring_spec rowsCx 7 storageW "1" rfl).1 hkeep).1⟩

/-! ## The maxBid clamp (C6) -/

/-- Counterexample for C6: with `minimumBid = 1` and `buyNowPrice = 10`, an
entered max bid of exactly 10 is not reduced — the handler only clamps when
the entered value strictly exceeds the buy-now price (`maxBid > buyPrice`),
so the stored max bid violates the claimed bound
`maxBid ≤ buyNowPrice - 0.01`. -/
theorem clampMaxBid_counterexample :
    clampMaxBid 10 (some 10) (some 1) = 10 ∧
    ¬ (clampMaxBid 10 (some 10) (some 1) ≤ 10 - 1 / 100) := by
  have h : clampMaxBid 10 (some 10) (some 1) = 10 := by
    simp [clampMaxBid]
  refine ⟨h, ?_⟩
  rw [h]
  norm_num

/-- C6 as amended: the entered max bid is clamped to `buyNowPrice - 0.01`
only when it strictly exceeds `buyNowPrice`, and raised to `minimumBid` only
otherwise (the two clamps are an if/else-if chain), so the invariant that
actually holds after the merge is `minimumBid ≤ maxBid ≤ buyNowPrice` when
both bounds are defined and consistent (`minimumBid + 0.01 ≤ buyNowPrice`);
with only a buy-now price defined, `maxBid ≤ buyNowPrice`; with only a
minimum bid defined, `minimumBid ≤ maxBid`; with neither, the entered value
is kept. -/
theorem clampMaxBid_bounds (entered minB buy : ℚ) :
    (minB + 1 / 100 ≤ buy →
      minB ≤ clampMaxBid entered (some buy) (some minB) ∧
      clampMaxBid entered (some buy) (some minB) ≤ buy) ∧
    clampMaxBid entered (some buy) none ≤ buy ∧
    minB ≤ clampMaxBid entered none (some minB) ∧
    clampMaxBid entered none none = entered := by
  refine ⟨?_, ?_, ?_, rfl⟩
  · intro hcons
    simp only [clampMaxBid]
    split_ifs with h1 h2
    · constructor <;> linarith
    · constructor <;> linarith
    · constructor <;> linarith
  · simp only [clampMaxBid]
    split_ifs with h1
    · linarith
    · linarith
  · simp only [clampMaxBid]
    split_ifs with h1
    · linarith
    · linarith

/-- Witness for C6 (amended) at concrete consistent bounds. -/
theorem clampMaxBid_bounds_witness :
    ((1 : ℚ) + 1 / 100 ≤ 10) ∧
    1 ≤ clampMaxBid 20 (some 10) (some 1) ∧ clampMaxBid 20 (some 10) (some 1) ≤ 10 :=
  ⟨by norm_num, (clampMaxBid_bounds 20 1 10).1 (by norm_num)⟩

/-! ## Bid-time deconfliction lemmas (C4) -/

theorem insertPair_perm (p : Nat × TableArticle) (l : List (Nat × TableArticle)) :
    List.Perm (insertPair p l) (p :: l) := by
  induction l with
  | nil => simp [insertPair]
  | cons q rest ih =>
    by_cases h : p.2.articleId ≤ q.2.articleId
    · simp only [insertPair, if_pos h]
      exact List.Perm.refl _
    · simp only [insertPair, if_neg h]
      exact (ih.cons q).trans (List.Perm.swap p q rest)

theorem sortPairs_perm (l : List (Nat × TableArticle)) :
    List.Perm (sortPairs l) l := by
  induction l with
  | nil => simp [sortPairs]
  | cons p rest ih =>
    exact (insertPair_perm p (sortPairs rest)).trans (ih.cons p)

theorem pairwise_insertPair (p : Nat × TableArticle) (l : List (Nat × TableArticle))
    (h : List.Pairwise (fun a b => a.2.articleId ≤ b.2.articleId) l) :
    List.Pairwise (fun a b => a.2.articleId ≤ b.2.articleId) (insertPair p l) := by
  induction l with
  | nil => simp [insertPair]
  | cons q rest ih =>
    obtain ⟨hq, hrest⟩ := List.pairwise_cons.mp h
    by_cases hle : p.2.articleId ≤ q.2.articleId
    · simp only [insertPair, if_pos hle]
      refine List.pairwise_cons.mpr ⟨?_, h⟩
      intro b hb
      rcases List.mem_cons.mp hb with rfl | hbr
      · exact hle
      · exact le_trans hle (hq b hbr)
    · simp only [insertPair, if_neg hle]
      refine List.pairwise_cons.mpr ⟨?_, ih hrest⟩
      intro b hb
      have hmem : b = p ∨ b ∈ rest := by
        have hb2 := (insertPair_perm p rest).mem_iff.mp hb
        simpa using hb2
      rcases hmem with rfl | hbr
      · exact Nat.le_of_lt (Nat.lt_of_not_le hle)
      · exact hq b hbr

theorem sortPairs_sorted (l : List (Nat × TableArticle)) :
    List.Pairwise (fun a b => a.2.articleId ≤ b.2.articleId) (sortPairs l) := by
  induction l with
  | nil => simp [sortPairs]
  | cons p rest ih => exact pairwise_insertPair p (sortPairs rest) ih

theorem snd_mem_of_mem_enumFrom {α : Type} (l : List α) (p : Nat × α) (n : Nat)
    (h : p ∈ List.enumFrom n l) : p.2 ∈ l := by
  induction l generalizing n with
  | nil => simp [List.enumFrom] at h
  | cons a t ih =>
    simp only [List.enumFrom] at h
    rcases List.mem_cons.mp h with rfl | h2
    · exact List.mem_cons_self a t
    · exact List.mem_cons_of_mem _ (ih _ h2)

theorem exists_mem_enumFrom {α : Type} (a : α) (l : List α) (h : a ∈ l) :
    ∀ n, ∃ i, (i, a) ∈ List.enumFrom n l := by
  induction l with
  | nil => cases h
  | cons b t ih =>
    intro n
    rcases List.mem_cons.mp h with rfl | ht
    · exact ⟨n, by simp [List.enumFrom]⟩
    · obtain ⟨i, hi⟩ := ih ht (n + 1)
      exact ⟨i, by simp only [List.enumFrom]; exact List.mem_cons_of_mem _ hi⟩

theorem pairwise_enumFrom_snd {α : Type} (R : α → α → Prop) (l : List α)
    (h : List.Pairwise R l) :
    ∀ n, List.Pairwise (fun p q : Nat × α => R p.2 q.2) (List.enumFrom n l) := by
  induction h with
  | nil => intro n; simp [List.enumFrom]
  | cons hhead _ ih =>
    intro n
    simp only [List.enumFrom]
    refine List.Pairwise.cons ?_ (ih (n + 1))
    intro q hq
    exact hhead q.2 (snd_mem_of_mem_enumFrom _ q _ hq)

theorem pairwise_enumFrom_fst {α : Type} (l : List α) :
    ∀ n, List.Pairwise (fun p q : Nat × α => p.1 ≠ q.1) (List.enumFrom n l) := by
  induction l with
  | nil => intro n; simp [List.enumFrom]
  | cons a t ih =>
    intro n
    simp only [List.enumFrom]
    refine List.Pairwise.cons ?_ (ih (n + 1))
    intro q hq
    obtain ⟨i, x⟩ := q
    have hle := (List.mem_enumFrom hq).1
    simp only
    omega

theorem countP_enumFrom_snd {α : Type} (f : α → Bool) (l : List α) :
    ∀ n, List.countP (fun p : Nat × α => f p.2) (List.enumFrom n l) = List.countP f l := by
  induction l with
  | nil => intro n; simp [List.enumFrom]
  | cons a t ih =>
    intro n
    simp only [List.enumFrom, List.countP_cons, ih]

theorem findKey_last_aux (selfId i0 : Nat) (m : List (Nat × TableArticle))
    (hall : ∀ p ∈ m, p.2.articleId = selfId → p.1 = i0) :
    m.foldl (fun acc p => if p.2.articleId = selfId then some p.1 else acc) (some i0)
      = some i0 := by
  induction m with
  | nil => rfl
  | cons p t ih =>
    rw [List.foldl_cons]
    have hstep : (if p.2.articleId = selfId then some p.1 else some i0) = some i0 := by
      by_cases hp : p.2.articleId = selfId
      · rw [if_pos hp, hall p (List.mem_cons_self p t) hp]
      · rw [if_neg hp]
    rw [hstep]
    exact ih (fun q hq hq2 => hall q (List.mem_cons_of_mem _ hq) hq2)

theorem findKey_eq (l : List (Nat × TableArticle)) (selfId i0 : Nat) (a0 : TableArticle)
    (hmem : (i0, a0) ∈ l) (hid : a0.articleId = selfId)
    (huniq : ∀ p ∈ l, p.2.articleId = selfId → p = (i0, a0)) :
    findKey l selfId = some i0 := by
  have aux : ∀ (m : List (Nat × TableArticle)) (acc : Option Nat),
      (i0, a0) ∈ m →
      (∀ p ∈ m, p.2.articleId = selfId → p = (i0, a0)) →
      m.foldl (fun acc p => if p.2.articleId = selfId then some p.1 else acc) acc
        = some i0 := by
    intro m
    induction m with
    | nil => intro acc hm _; cases hm
    | cons p t ih =>
      intro acc hm hu
      rw [List.foldl_cons]
      rcases List.mem_cons.mp hm with heq | hmt
      · have hpid : p.2.articleId = selfId := by rw [← heq]; exact hid
        have hacc : (if p.2.articleId = selfId then some p.1 else acc) = some i0 := by
          rw [if_pos hpid, ← heq]
        rw [hacc]
        refine findKey_last_aux selfId i0 t ?_
        intro q hq hq2
        rw [hu q (List.mem_cons_of_mem _ hq) hq2]
      · exact ih _ hmt (fun q hq hq2 => hu q (List.mem_cons_of_mem _ hq) hq2)
  exact aux l none hmem huniq

theorem jsIndexOf_eq_findIdx (keys : List Nat) (key : Nat) (h : key ∈ keys) :
    jsIndexOf keys key = (keys.findIdx (fun k => k == key) : Int) := by
  induction keys with
  | nil => cases h
  | cons k rest ih =>
    by_cases hk : k = key
    · have hbeq : (k == key) = true := by simp [hk]
      simp [jsIndexOf, hk, List.findIdx_cons, hbeq]
    · have hkey : key ∈ rest := by
        rcases List.mem_cons.mp h with rfl | hr
        · exact absurd rfl hk
        · exact hr
      have hbeq : (k == key) = false := by simp [hk]
      simp only [jsIndexOf, if_neg hk, List.findIdx_cons, hbeq, cond_false]
      rw [ih hkey]
      have hne : ((rest.findIdx fun k => k == key : Nat) : Int) ≠ -1 := by omega
      rw [if_neg hne]
      push_cast
      ring

theorem findIdx_over_map {α β : Type} (f : α → β) (l : List α) (p : β → Bool) :
    (l.map f).findIdx p = l.findIdx (fun a => p (f a)) := by
  induction l with
  | nil => rfl
  | cons a t ih => simp [List.findIdx_cons, ih]

theorem findIdx_congr_unique {α : Type} (m : List α) (p q : α → Bool) (x : α)
    (hpx : p x = true) (hqx : q x = true) :
    x ∈ m →
    (∀ y ∈ m, p y = true → y = x) →
    (∀ y ∈ m, q y = true → y = x) →
    m.findIdx p = m.findIdx q := by
  induction m with
  | nil => intro hx _ _; cases hx
  | cons a t ih =>
    intro hx hup huq
    by_cases hpa : p a = true
    · have ha : a = x := hup a (List.mem_cons_self a t) hpa
      have hqa : q a = true := by rw [ha]; exact hqx
      rw [List.findIdx_cons, List.findIdx_cons, hpa, hqa]
      rfl
    · have hax : a ≠ x := fun hh => hpa (by rw [hh]; exact hpx)
      have hqa : q a = false := by
        cases hq2 : q a with
        | false => rfl
        | true => exact absurd (huq a (List.mem_cons_self a t) hq2) hax
      have hpa2 : p a = false := by
        cases hp2 : p a with
        | false => rfl
        | true => exact absurd hp2 hpa
      have hxt : x ∈ t := by
        rcases List.mem_cons.mp hx with rfl | hh
        · exact absurd rfl hax
        · exact hh
      rw [List.findIdx_cons, List.findIdx_cons, hpa2, hqa]
      simp only [cond_false]
      rw [ih hxt (fun y hy hy2 => hup y (List.mem_cons_of_mem _ hy) hy2)
            (fun y hy hy2 => huq y (List.mem_cons_of_mem _ hy) hy2)]

theorem findIdx_eq_countP_of_sorted (m : List (Nat × TableArticle)) (selfId : Nat)
    (hsort : List.Pairwise (fun a b => a.2.articleId ≤ b.2.articleId) m) :
    (∃ x ∈ m, x.2.articleId = selfId) →
    m.findIdx (fun x => x.2.articleId == selfId)
      = m.countP (fun x => decide (x.2.articleId < selfId)) := by
  induction m with
  | nil => rintro ⟨x, hx, -⟩; cases hx
  | cons p t ih =>
    rintro ⟨x, hx, hxid⟩
    obtain ⟨hp, ht⟩ := List.pairwise_cons.mp hsort
    by_cases hpid : p.2.articleId = selfId
    · have hbeq : (p.2.articleId == selfId) = true := by simp [hpid]
      rw [List.findIdx_cons, hbeq]
      simp only [cond_true]
      rw [List.countP_cons]
      have h0 : List.countP (fun x => decide (x.2.articleId < selfId)) t = 0 := by
        rw [List.countP_eq_zero]
        intro a ha
        have hle := hp a ha
        simp only [decide_eq_true_eq]
        omega
      have hfalse : decide (p.2.articleId < selfId) = false := by simp [hpid]
      rw [h0, hfalse]
      simp
    · have hbeq : (p.2.articleId == selfId) = false := by simp [hpid]
      have hxt : x ∈ t := by
        rcases List.mem_cons.mp hx with rfl | hh
        · exact absurd hxid hpid
        · exact hh
      have hplt : p.2.articleId < selfId := by
        have hle := hp x hxt
        rw [hxid] at hle
        omega
      rw [List.findIdx_cons, hbeq]
      simp only [cond_false]
      rw [List.countP_cons, ih ht ⟨x, hxt, hxid⟩]
      have htrue : decide (p.2.articleId < selfId) = true := by simp [hplt]
      rw [htrue]
      simp

theorem pairSndIdNe_symm :
    Symmetric (fun p q : Nat × TableArticle => p.2.articleId ≠ q.2.articleId) :=
  fun _ _ h he => h he.symm

theorem pairFstNe_symm : Symmetric (fun p q : Nat × TableArticle => p.1 ≠ q.1) :=
  fun _ _ h he => h he.symm

theorem getAdjustedBidTime_formula (selfId : Nat) (selfEnd : Int) (rows : List TableArticle)
    (hmem : ({ articleId := selfId, articleEndTime := some selfEnd } : TableArticle) ∈ rows)
    (hdist : List.Pairwise (fun a b => a.articleId ≠ b.articleId) rows) :
    getAdjustedBidTime selfId selfEnd rows
      = selfEnd - 2000 * (coEndingSmallerCount rows selfId selfEnd : Int) := by
  set self : TableArticle := { articleId := selfId, articleEndTime := some selfEnd }
    with hself
  have hco : isCoEnding self selfEnd = true := by simp [isCoEnding, hself]
  obtain ⟨i0, hi0⟩ := exists_mem_enumFrom self rows hmem 0
  have hifilt : (i0, self) ∈ objFilterCoEnding rows selfEnd := by
    rw [objFilterCoEnding, List.enum_eq_enumFrom]
    exact List.mem_filter.mpr ⟨hi0, hco⟩
  have hpw_snd : List.Pairwise
      (fun p q : Nat × TableArticle => p.2.articleId ≠ q.2.articleId)
      (objFilterCoEnding rows selfEnd) := by
    have h1 := pairwise_enumFrom_snd (fun a b => a.articleId ≠ b.articleId) rows hdist 0
    rw [objFilterCoEnding, List.enum_eq_enumFrom]
    exact List.Pairwise.sublist (List.filter_sublist _) h1
  have hpw_fst : List.Pairwise (fun p q : Nat × TableArticle => p.1 ≠ q.1)
      (objFilterCoEnding rows selfEnd) := by
    have h1 := pairwise_enumFrom_fst rows 0
    rw [objFilterCoEnding, List.enum_eq_enumFrom]
    exact List.Pairwise.sublist (List.filter_sublist _) h1
  have huniq : ∀ p ∈ objFilterCoEnding rows selfEnd,
      p.2.articleId = selfId → p = (i0, self) := by
    intro p hp hpid
    by_cases hpe : p = (i0, self)
    · exact hpe
    · have hne := (hpw_snd.forall pairSndIdNe_symm) hp hifilt hpe
      have hsid : (i0, self).2.articleId = selfId := by simp [hself]
      exact absurd (hpid.trans hsid.symm) hne
  have hfk : findKey (objFilterCoEnding rows selfEnd) selfId = some i0 :=
    findKey_eq _ selfId i0 self hifilt (by simp [hself]) huniq
  have hperm := sortPairs_perm (objFilterCoEnding rows selfEnd)
  have hsorted := sortPairs_sorted (objFilterCoEnding rows selfEnd)
  have hmem_s : (i0, self) ∈ sortPairs (objFilterCoEnding rows selfEnd) :=
    hperm.mem_iff.mpr hifilt
  have hpw_fst_s : List.Pairwise (fun p q : Nat × TableArticle => p.1 ≠ q.1)
      (sortPairs (objFilterCoEnding rows selfEnd)) :=
    (hperm.pairwise_iff (fun {x y} h he => h he.symm)).mpr hpw_fst
  have hkeymem : i0 ∈ (sortPairs (objFilterCoEnding rows selfEnd)).map Prod.fst :=
    List.mem_map_of_mem Prod.fst hmem_s
  have hup : ∀ y ∈ sortPairs (objFilterCoEnding rows selfEnd),
      (y.1 == i0) = true → y = (i0, self) := by
    intro y hy hyb
    have hy1 : y.1 = i0 := by simpa using hyb
    by_cases hye : y = (i0, self)
    · exact hye
    · have hne := (hpw_fst_s.forall pairFstNe_symm) hy hmem_s hye
      exact absurd hy1 (by simpa using hne)
  have huq : ∀ y ∈ sortPairs (objFilterCoEnding rows selfEnd),
      (y.2.articleId == selfId) = true → y = (i0, self) := by
    intro y hy hyb
    exact huniq y (hperm.mem_iff.mp hy) (by simpa using hyb)
  have hred : getAdjustedBidTime selfId selfEnd rows
      = selfEnd - (jsIndexOfOpt ((sortPairs (objFilterCoEnding rows selfEnd)).map Prod.fst)
          (findKey (objFilterCoEnding rows selfEnd) selfId) * 2) * 1000 := rfl
  rw [hred, hfk]
  have h2 : jsIndexOfOpt ((sortPairs (objFilterCoEnding rows selfEnd)).map Prod.fst)
      (some i0)
      = jsIndexOf ((sortPairs (objFilterCoEnding rows selfEnd)).map Prod.fst) i0 := rfl
  rw [h2, jsIndexOf_eq_findIdx _ i0 hkeymem, findIdx_over_map]
  rw [findIdx_congr_unique (sortPairs (objFilterCoEnding rows selfEnd))
        (fun a => a.1 == i0) (fun x => x.2.articleId == selfId) (i0, self)
        (by simp) (by simp [hself]) hmem_s hup huq]
  rw [findIdx_eq_countP_of_sorted _ selfId hsorted ⟨(i0, self), hmem_s, by simp [hself]⟩]
  rw [List.Perm.countP_eq _ hperm]
  have hcount : List.countP (fun x : Nat × TableArticle => decide (x.2.articleId < selfId))
      (objFilterCoEnding rows selfEnd) = coEndingSmallerCount rows selfId selfEnd := by
    rw [objFilterCoEnding, List.countP_filter, List.enum_eq_enumFrom]
    exact countP_enumFrom_snd
      (fun a => decide (a.articleId < selfId) && isCoEnding a selfEnd) rows 0
  rw [hcount]
  ring

/-- C4: `Article.getAdjustedBidTime` selects exactly the tracked articles
whose end time differs from the target's by less than 1000 ms (the target
included), sorts them ascending by numeric article id, and returns the
target's end time minus 2000 ms times the target's 0-based rank in that
order — equivalently (ids being pairwise distinct), minus 2000 ms times the
number of co-ending articles with a smaller article id. When the target is
the only co-ending article the rank is 0 and the original end time is
returned unchanged. The result is a deterministic function of the inputs
and is invariant under permutation of the table rows, hence identical on
every machine holding the same data. -/
theorem getAdjustedBidTime_spec (selfId : Nat) (selfEnd : Int) (rows : List TableArticle)
    (hmem : ({ articleId := selfId, articleEndTime := some selfEnd } : TableArticle) ∈ rows)
    (hdist : List.Pairwise (fun a b => a.articleId ≠ b.articleId) rows) :
    getAdjustedBidTime selfId selfEnd rows
      = selfEnd - 2000 * (coEndingSmallerCount rows selfId selfEnd : Int) ∧
    (rows.countP (fun a => isCoEnding a selfEnd) = 1 →
      getAdjustedBidTime selfId selfEnd rows = selfEnd) ∧
    (∀ rows2, List.Perm rows rows2 →
      getAdjustedBidTime selfId selfEnd rows2 = getAdjustedBidTime selfId selfEnd rows) := by
  have hmain := getAdjustedBidTime_formula selfId selfEnd rows hmem hdist
  refine ⟨hmain, ?_, ?_⟩
  · intro h1
    rw [hmain]
    suffices h0 : coEndingSmallerCount rows selfId selfEnd = 0 by
      rw [h0]; ring
    unfold coEndingSmallerCount
    rw [List.countP_eq_zero]
    intro a ha hcon
    simp only [Bool.and_eq_true, decide_eq_true_eq] at hcon
    have hlen : (rows.filter (fun a => isCoEnding a selfEnd)).length = 1 := by
      rw [← List.countP_eq_length_filter]; exact h1
    obtain ⟨x, hx⟩ := List.length_eq_one.mp hlen
    have hselff : ({ articleId := selfId, articleEndTime := some selfEnd } : TableArticle)
        ∈ rows.filter (fun a => isCoEnding a selfEnd) :=
      List.mem_filter.mpr ⟨hmem, by simp [isCoEnding]⟩
    have haf : a ∈ rows.filter (fun a => isCoEnding a selfEnd) :=
      List.mem_filter.mpr ⟨ha, hcon.2⟩
    rw [hx] at hselff haf
    have h3 := List.mem_singleton.mp hselff
    have h4 := List.mem_singleton.mp haf
    have h5 : a.articleId = selfId := by rw [h4.trans h3.symm]
    have h6 := hcon.1
    omega
  · intro rows2 hperm
    have hmem2 : ({ articleId := selfId, articleEndTime := some selfEnd } : TableArticle)
        ∈ rows2 := hperm.mem_iff.mp hmem
    have hdist2 := (hperm.pairwise_iff (fun {x y} h he => h he.symm)).mp hdist
    rw [getAdjustedBidTime_formula selfId selfEnd rows2 hmem2 hdist2, hmain]
    have hc : coEndingSmallerCount rows2 selfId selfEnd
        = coEndingSmallerCount rows selfId selfEnd := by
      unfold coEndingSmallerCount
      exact (List.Perm.countP_eq _ hperm).symm
    rw [hc]

/-- Witness for C4: three articles `100 < 200 < 300` all ending at time 0;
the middle one bids 2000 ms early. -/
theorem getAdjustedBidTime_spec_witness :
    getAdjustedBidTime 200 0 rows3 = -2000 := by
  have h := (getAdjustedBidTime_spec 200 0 rows3 (by decide) (by decide)).1
  rw [h]
  decide
